import Mathlib

/-!
# Verification of the composite-value decoding layer of geplo/modeltest

Shallow embedding of the decoders and re-encoders in `src/main.go`:
`ScanToString`, `TimeMetadata.{MarshalJSON,Scan1}`, `Metadata.{MarshalJSON,Scan1}`,
`UserOrganization.Scan` and `UserOrganizations.Scan`, together with models of the
external library functions they call (`strings.Trim`, `strings.Split`,
`strings.Join` from the Go standard library; `pq.ParseTimestamp` and
`pq.StringArray.Scan` from github.com/lib/pq; `uuid.Parse` from
github.com/creack/uuid).

Strings are modelled as lists of characters (`Str`).  Go methods with pointer
receivers that mutate the receiver and return an `error` are modelled as
functions `Receiver → input → Receiver × Option GoErr`: the returned receiver
reflects exactly the field assignments the Go code performed before returning.
A Go runtime panic (out-of-range index or slice) is modelled as a distinguished
error outcome `panicErr`, since it aborts the operation without producing a
value; it is never a value of Go type `error`.
-/

set_option maxRecDepth 100000

namespace MT

/-- Go strings, modelled as lists of characters. -/
abbrev Str := List Char

/-- Go `error` values as built by the errors package used in the source:
`errors.New msg` and `errors.Wrap msg cause`. -/
inductive GoErr : Type
  | new (msg : String)
  | wrap (msg : String) (cause : GoErr)
  deriving DecidableEq, Repr

/-- The dynamic value handed to a `Scan` method (Go `interface{}`): a string,
a byte slice (whose content we also model as characters), the nil interface,
or any other value. -/
inductive Src : Type
  | str (s : Str)
  | bytes (b : Str)
  | nullSrc
  | other
  deriving DecidableEq, Repr

def msgInvalidType : String := "invalid type"
def msgTMType : String := "invalid type for TimeMetadata scan"
def msgTMCount : String := "invalid count for TimeMetadata scan"
def msgCreated : String := "error parsing created_at"
def msgUpdated : String := "error parsing updated_at"
def msgDeleted : String := "error parsing deleted_at"
def msgMetaType : String := "invalid type for Metadata scan"
def msgMetaCount : String := "invalid count for Metadata scan"
def msgOwner : String := "invalid owner_id for Metadata scan"
def msgUOType : String := "invalid type for UserOrganization scan"
def msgUserId : String := "invalid user_id"
def msgOrgId : String := "invalid organization_id"
def msgRole : String := "invalid user_role"
def msgUOMeta : String := "error scan TimeMetadata for UserOrganization"
def msgArray : String := "error parsing db result into string array"
def msgElem : String := "error parsing db result element into user organization"
def msgPanic : String := "runtime panic: index out of range"
def msgPqArray : String := "pq: unable to parse array"
def msgPqNil : String := "pq: cannot convert nil to string"
def msgPqTs : String := "pq: cannot parse timestamp"
def msgPqConvert : String := "pq: cannot convert src to StringArray"

def keyCreatedAt : String := "created_at"
def keyUpdatedAt : String := "updated_at"
def keyDeletedAt : String := "deleted_at"

/-- `ErrInvalidType` from the source. -/
def ErrInvalidType : GoErr := .new msgInvalidType

/-- Model of a Go runtime panic escaping a decoder (index out of range /
slice bounds out of range).  Not a Go `error` value; a distinguished abnormal
outcome. -/
def panicErr : GoErr := .new msgPanic

/-- `ScanToString` from the source: returns the string form of a cell value,
`ErrInvalidType` for anything that is neither `string` nor `[]byte`. -/
def ScanToString (src : Src) : Except GoErr Str :=
  match src with
  | .str s => .ok s
  | .bytes b => .ok b
  | .nullSrc => .error ErrInvalidType
  | .other => .error ErrInvalidType

/-! ## Go `strings` package operations used by the source -/

/-- Character class of the cutset `"()"` passed to `strings.Trim`. -/
def isParen (c : Char) : Bool := c == '(' || c == ')'

/-- Character class of the cutset `"\""` passed to `strings.Trim`. -/
def isQuote (c : Char) : Bool := c == '"'

/-- Remove all leading characters satisfying `p` (Go `strings.TrimLeft`). -/
def trimLeftChars (p : Char → Bool) : Str → Str
  | [] => []
  | c :: rest => if p c then trimLeftChars p rest else c :: rest

/-- Remove all trailing characters satisfying `p` (Go `strings.TrimRight`). -/
def trimRightChars (p : Char → Bool) (s : Str) : Str :=
  (trimLeftChars p s.reverse).reverse

/-- Go `strings.Trim s cutset`: removes all leading and trailing characters of
the cutset (not just one pair). -/
def goTrim (p : Char → Bool) (s : Str) : Str :=
  trimRightChars p (trimLeftChars p s)

/-- Go `strings.Split s ","`: split on every comma; the result always has one
more part than there are commas, and is never empty. -/
def splitComma : Str → List Str
  | [] => [[]]
  | c :: rest =>
    if c = ',' then [] :: splitComma rest
    else
      match splitComma rest with
      | [] => [[c]]
      | h :: t => (c :: h) :: t

/-- Go `strings.Join parts ","`. -/
def joinComma : List Str → Str
  | [] => []
  | [x] => x
  | x :: rest => x ++ ',' :: joinComma rest

/-! ## Model of `time.Time` values and of `pq.ParseTimestamp`

`time.Time` values produced in this program always come from
`pq.ParseTimestamp(time.UTC, s)`, so an instant is fully described by its
calendar components in UTC.  Go's zero `time.Time` is January 1 of year 1,
00:00:00 UTC. -/

structure GoTime : Type where
  year : Nat
  month : Nat
  day : Nat
  hour : Nat
  minute : Nat
  second : Nat
  deriving DecidableEq, Repr

/-- Go's zero `time.Time` (January 1, year 1, 00:00:00 UTC). -/
def zeroTime : GoTime := ⟨1, 1, 1, 0, 0, 0⟩

/-- `time.Time.IsZero`. -/
def GoTime.IsZero (t : GoTime) : Bool := t == zeroTime

def digitVal (c : Char) : Nat := c.toNat - 48

def isLeapYear (y : Nat) : Bool := (y % 4 == 0 && y % 100 != 0) || (y % 400 == 0)

def daysInMonth (y m : Nat) : Nat :=
  if m = 2 then (if isLeapYear y then 29 else 28)
  else if m = 4 ∨ m = 6 ∨ m = 9 ∨ m = 11 then 30
  else 31

/-- Model of the external library function `pq.ParseTimestamp` of
github.com/lib/pq, restricted to the plain Postgres timestamp text form
`YYYY-MM-DD HH:MM:SS` with in-range calendar components (no fractional
seconds, no numeric offset, no `BC` suffix, no infinity sentinels).  Inputs
outside this form are rejected; on accepted inputs the model agrees with the
library, which builds the instant from exactly these components.  On failure
the library returns the zero `time.Time` together with an error; callers in
the source assign that zero value to the target field before propagating the
error, and the embedding of those callers reproduces that assignment. -/
def pq.ParseTimestamp (s : Str) : Except GoErr GoTime :=
  match s with
  | [y1, y2, y3, y4, '-', m1, m2, '-', d1, d2, ' ', h1, h2, ':', n1, n2, ':', e1, e2] =>
    if y1.isDigit ∧ y2.isDigit ∧ y3.isDigit ∧ y4.isDigit ∧ m1.isDigit ∧ m2.isDigit ∧
       d1.isDigit ∧ d2.isDigit ∧ h1.isDigit ∧ h2.isDigit ∧ n1.isDigit ∧ n2.isDigit ∧
       e1.isDigit ∧ e2.isDigit then
      let y := digitVal y1 * 1000 + digitVal y2 * 100 + digitVal y3 * 10 + digitVal y4
      let mo := digitVal m1 * 10 + digitVal m2
      let d := digitVal d1 * 10 + digitVal d2
      let h := digitVal h1 * 10 + digitVal h2
      let mi := digitVal n1 * 10 + digitVal n2
      let se := digitVal e1 * 10 + digitVal e2
      if 1 ≤ mo ∧ mo ≤ 12 ∧ 1 ≤ d ∧ d ≤ daysInMonth y mo ∧ h ≤ 23 ∧ mi ≤ 59 ∧ se ≤ 59 then
        .ok ⟨y, mo, d, h, mi, se⟩
      else .error (.new msgPqTs)
    else .error (.new msgPqTs)
  | _ => .error (.new msgPqTs)

/-! ## Model of `uuid.Parse` (github.com/creack/uuid)

A `uuid.UUID` is a byte slice; `Parse` returns `nil` (here: `none`) on any
input that is not a textual UUID.  The model is restricted to the canonical
36-character form `xxxxxxxx-xxxx-xxxx-xxxx-xxxxxxxxxxxx` (the only form the
program's database produces); the `urn:uuid:` prefixed form accepted by the
library is rejected by the model. -/

def isHexChar (c : Char) : Bool :=
  if ('0' ≤ c ∧ c ≤ '9') ∨ ('a' ≤ c ∧ c ≤ 'f') ∨ ('A' ≤ c ∧ c ≤ 'F') then true else false

def hexVal (c : Char) : Nat :=
  if '0' ≤ c ∧ c ≤ '9' then c.toNat - 48
  else if 'a' ≤ c ∧ c ≤ 'f' then c.toNat - 87
  else c.toNat - 55

abbrev uuid.UUID : Type := List Nat

/-- Positions of the four hyphens in the canonical textual form. -/
def dashPositions : List Nat := [8, 13, 18, 23]

def byteAt (s : Str) (i : Nat) : Nat :=
  hexVal (s.getD i ' ') * 16 + hexVal (s.getD (i + 1) ' ')

def uuidBytes (s : Str) : uuid.UUID :=
  [byteAt s 0, byteAt s 2, byteAt s 4, byteAt s 6, byteAt s 9, byteAt s 11,
   byteAt s 14, byteAt s 16, byteAt s 19, byteAt s 21, byteAt s 24, byteAt s 26,
   byteAt s 28, byteAt s 30, byteAt s 32, byteAt s 34]

def uuid.Parse (s : Str) : Option uuid.UUID :=
  if s.length = 36 ∧ (∀ i ∈ dashPositions, s.getD i ' ' = '-') ∧
     (∀ i ∈ List.range 36, i ∈ dashPositions ∨ isHexChar (s.getD i ' ') = true) then
    some (uuidBytes s)
  else none

/-! ## The domain model

`TimeMetadata` is a plain record.  `Metadata`, `User`, `UserOrganization`,
`UserTeam` and `PaymentPlan` are mutually recursive in the Go source (a
`Metadata` holds an optional `*User`, every entity embeds a `Metadata`), so
they are declared in one mutual block with explicit accessors.  Go zero
values: nil slices and pointers become `none`/`[]`, the zero `time.Time`
becomes `zeroTime`, the empty string becomes `[]`. -/

structure TimeMetadata : Type where
  CreatedAt : GoTime
  UpdatedAt : GoTime
  DeletedAt : Option GoTime
  deriving DecidableEq, Repr

/-- The zero value of `TimeMetadata`. -/
def zeroTM : TimeMetadata := ⟨zeroTime, zeroTime, none⟩

mutual

inductive Metadata : Type
  | mk (owner : Option User) (timeMetadata : TimeMetadata) : Metadata

inductive User : Type
  | mk (id : Option uuid.UUID) (organizations : List UserOrganization)
      (teams : List UserTeam) (paymentPlan : Option PaymentPlan)
      (metadata : Metadata) : User

inductive UserOrganization : Type
  | mk (userId : Option uuid.UUID) (organizationId : Option uuid.UUID)
      (role : Str) (metadata : Metadata) : UserOrganization

inductive UserTeam : Type
  | mk (userId : Option uuid.UUID) (organizationId : Option uuid.UUID)
      (role : Str) (metadata : Metadata) : UserTeam

inductive PaymentPlan : Type
  | mk (id : Option uuid.UUID) (name : Str) (cost : Float)
      (currency : Str) (term : Str) (metadata : Metadata) : PaymentPlan

end

def Metadata.Owner : Metadata → Option User
  | .mk o _ => o

def Metadata.TimeMetadata : Metadata → TimeMetadata
  | .mk _ t => t

def User.ID : User → Option uuid.UUID
  | .mk i _ _ _ _ => i

def UserOrganization.UserID : UserOrganization → Option uuid.UUID
  | .mk u _ _ _ => u

def UserOrganization.OrganizationID : UserOrganization → Option uuid.UUID
  | .mk _ o _ _ => o

def UserOrganization.Role : UserOrganization → Str
  | .mk _ _ r _ => r

def UserOrganization.Metadata : UserOrganization → Metadata
  | .mk _ _ _ m => m

/-- The zero value of `Metadata`. -/
def zeroMetadata : Metadata := .mk none zeroTM

/-- The zero value of `User`. -/
def zeroUser : User := .mk none [] [] none zeroMetadata

/-- The zero value of `UserOrganization` (the fresh `UserOrganization{}`
allocated for each array element in `UserOrganizations.Scan`). -/
def zeroUO : UserOrganization := .mk none none [] zeroMetadata

/-! ## Re-encoders (`MarshalJSON`)

`json.Marshal` of a `map[string]T` with distinct keys is an injective encoding
of the key/value association, so the JSON output is modelled as the
association list the Go code builds (in the source's insertion order).
A returned `nil` byte slice (the Go code's `return nil, nil`) is modelled as
`none`; a marshalled object — even the empty object — as `some`. -/

def TimeMetadata.MarshalJSON (tm : TimeMetadata) : Option (List (String × GoTime)) :=
  let mm : List (String × GoTime) :=
    (if tm.CreatedAt.IsZero then [] else [("created_at", tm.CreatedAt)]) ++
    (if tm.UpdatedAt.IsZero then [] else [("updated_at", tm.UpdatedAt)]) ++
    (match tm.DeletedAt with
     | some d => if d.IsZero then [] else [("deleted_at", d)]
     | none => [])
  if mm = [] then none else some mm

/-- A value stored in the `map[string]interface{}` built by
`Metadata.MarshalJSON`: the owner's identifier or a timestamp. -/
inductive JVal : Type
  | uuidVal (u : Option uuid.UUID)
  | timeVal (t : GoTime)
  deriving DecidableEq, Repr

def Metadata.MarshalJSON (m : Metadata) : Option (List (String × JVal)) :=
  let mm : List (String × JVal) :=
    (match m.Owner with
     | some o => [("owner_id", JVal.uuidVal o.ID)]
     | none => []) ++
    (if m.TimeMetadata.CreatedAt.IsZero then []
     else [("created_at", JVal.timeVal m.TimeMetadata.CreatedAt)]) ++
    (if m.TimeMetadata.UpdatedAt.IsZero then []
     else [("updated_at", JVal.timeVal m.TimeMetadata.UpdatedAt)]) ++
    (match m.TimeMetadata.DeletedAt with
     | some d => if d.IsZero then [] else [("deleted_at", JVal.timeVal d)]
     | none => [])
  some mm

/-! ## Decoders (`Scan`/`Scan1`)

Each decoder is `Receiver → Src → Receiver × Option GoErr`; the returned
receiver carries exactly the assignments the Go method performed before it
returned (Go mutates through the pointer receiver, so those assignments are
visible to the caller even when an error is returned). -/

def TimeMetadata.Scan1 (tm : TimeMetadata) (src : Src) : TimeMetadata × Option GoErr :=
  match ScanToString src with
  | .error e => (tm, some (.wrap msgTMType e))
  | .ok s0 =>
    let parts := splitComma (goTrim isParen s0)
    if parts.length = 3 then
      match parts.map (goTrim isQuote) with
      | [p0, p1, p2] =>
        match pq.ParseTimestamp p0 with
        | .error e =>
          -- `tm.CreatedAt, err = pq.ParseTimestamp(...)` assigns the zero
          -- time the library returns alongside the error
          ({tm with CreatedAt := zeroTime}, some (.wrap msgCreated e))
        | .ok c =>
          match pq.ParseTimestamp p1 with
          | .error e =>
            ({tm with CreatedAt := c, UpdatedAt := zeroTime}, some (.wrap msgUpdated e))
          | .ok u =>
            if p2 = [] then ({tm with CreatedAt := c, UpdatedAt := u}, none)
            else
              match pq.ParseTimestamp p2 with
              | .error e =>
                ({tm with CreatedAt := c, UpdatedAt := u}, some (.wrap msgDeleted e))
              | .ok d =>
                ({tm with CreatedAt := c, UpdatedAt := u, DeletedAt := some d}, none)
      | _ => (tm, some (.new msgTMCount))  -- unreachable: `map` preserves length
    else (tm, some (.new msgTMCount))

def Metadata.Scan1 (m : Metadata) (src : Src) : Metadata × Option GoErr :=
  match ScanToString src with
  | .error e => (m, some (.wrap msgMetaType e))
  | .ok s0 =>
    let parts := splitComma (goTrim isParen s0)
    if parts.length = 4 then
      match parts.map (goTrim isQuote) with
      | [p0, p1, p2, p3] =>
        match uuid.Parse p0 with
        | none => (m, some (.new msgOwner))
        | some ownerID =>
          -- `m.Owner = &User{ID: ownerID}`: a fresh User carrying only the id
          let owner := User.mk (some ownerID) [] [] none zeroMetadata
          match MT.TimeMetadata.Scan1 m.TimeMetadata
              (.str ('(' :: joinComma [p1, p2, p3] ++ [')'])) with
          | (tm, e) => (Metadata.mk (some owner) tm, e)
      | _ => (m, some (.new msgMetaCount))  -- unreachable: `map` preserves length
    else (m, some (.new msgMetaCount))

def UserOrganization.Scan (uo : UserOrganization) (src : Src) : UserOrganization × Option GoErr :=
  match ScanToString src with
  | .error e => (uo, some (.wrap msgUOType e))
  | .ok s =>
    match splitComma (goTrim isParen s) with
    | [] => (uo, some panicErr)  -- unreachable: splitComma never returns []
    | [p0] =>
      -- parts[1] is out of range: Go panics after assigning UserID
      (UserOrganization.mk (uuid.Parse p0) uo.OrganizationID uo.Role uo.Metadata,
       some panicErr)
    | [p0, p1] =>
      -- parts[2] is out of range: Go panics after assigning the two ids
      (UserOrganization.mk (uuid.Parse p0) (uuid.Parse p1) uo.Role uo.Metadata,
       some panicErr)
    | p0 :: p1 :: p2 :: rest =>
      let uo1 := UserOrganization.mk (uuid.Parse p0) (uuid.Parse p1) p2 uo.Metadata
      if uo1.UserID = none then (uo1, some (.new msgUserId))
      else if uo1.OrganizationID = none then (uo1, some (.new msgOrgId))
      else if uo1.Role = [] then (uo1, some (.new msgRole))
      else if rest.length < 4 then
        -- parts[3:7] is out of bounds for fewer than 7 fields: Go panics
        (uo1, some panicErr)
      else
        -- parts[3:7] keeps exactly four fields; any further fields are dropped
        let tm := '(' :: joinComma (rest.take 4) ++ [')']
        match MT.Metadata.Scan1 uo1.Metadata (.str tm) with
        | (md, e) =>
          (UserOrganization.mk uo1.UserID uo1.OrganizationID uo1.Role md,
           match e with
           | some err => some (.wrap msgUOMeta err)
           | none => none)

/-! ## Model of `pq.StringArray.Scan` (github.com/lib/pq)

The library parses the Postgres one-dimensional array text form
`\x7b e1, ..., en \x7d` where each element is either a double-quoted string
(with backslash escapes) or an unquoted token running to the next comma or
closing brace (the unquoted token `NULL` denoting SQL NULL), and then
requires every element to be non-NULL.  The model covers exactly the
one-dimensional form without surrounding whitespace; recursion is by fuel,
called with enough fuel for the whole input. -/

def scanQuoted : Nat → Str → Option (Str × Str)
  | 0, _ => none
  | _ + 1, [] => none
  | fuel + 1, c :: rest =>
    if c = '"' then some ([], rest)
    else if c = '\\' then
      match rest with
      | [] => none
      | d :: rest2 =>
        match scanQuoted fuel rest2 with
        | some (content, rem) => some (d :: content, rem)
        | none => none
    else
      match scanQuoted fuel rest with
      | some (content, rem) => some (c :: content, rem)
      | none => none

def scanElems : Nat → Str → Option (List (Option Str))
  | 0, _ => none
  | fuel + 1, s =>
    let step : Option (Option Str × Str) :=
      match s with
      | '"' :: r =>
        match scanQuoted (r.length + 1) r with
        | some (content, rem) => some (some content, rem)
        | none => none
      | _ =>
        let tok := s.takeWhile (fun c => !(c == ',' || c == '\x7d'))
        let rest := s.dropWhile (fun c => !(c == ',' || c == '\x7d'))
        some (if tok = ['N', 'U', 'L', 'L'] then none else some tok, rest)
    match step with
    | none => none
    | some (e, rest) =>
      match rest with
      | ',' :: r2 =>
        match scanElems fuel r2 with
        | some es => some (e :: es)
        | none => none
      | ['\x7d'] => some [e]
      | _ => none

def pq.parseArray (s : Str) : Option (List (Option Str)) :=
  match s with
  | '\x7b' :: rest =>
    if rest = ['\x7d'] then some [] else scanElems (rest.length + 1) rest
  | _ => none

abbrev pq.StringArray := List Str

def pq.scanBytes (s : Str) : Except GoErr pq.StringArray :=
  match pq.parseArray s with
  | none => .error (.new msgPqArray)
  | some elems =>
    match elems.mapM (fun x => x) with
    | some strs => .ok strs
    | none => .error (.new msgPqNil)

/-- `pq.StringArray.Scan`: a nil source sets the receiver to nil (here: the
empty array); strings and byte slices are parsed; anything else is a
conversion error.  The receiver's previous value is always replaced, so the
model needs no receiver argument. -/
def pq.StringArray.Scan (src : Src) : Except GoErr pq.StringArray :=
  match src with
  | .str s => pq.scanBytes s
  | .bytes b => pq.scanBytes b
  | .nullSrc => .ok []
  | .other => .error (.new msgPqConvert)

abbrev UserOrganizations := List UserOrganization

/-- The `for _, elem := range strArray` loop body of `UserOrganizations.Scan`:
each element is decoded into a fresh `UserOrganization{}` and appended to the
receiver; the first failing element aborts the loop with a wrapped error,
leaving the elements already appended in the receiver. -/
def UserOrganizations.scanLoop : UserOrganizations → List Str → UserOrganizations × Option GoErr
  | uos, [] => (uos, none)
  | uos, e :: rest =>
    match UserOrganization.Scan zeroUO (.str e) with
    | (uo, none) => UserOrganizations.scanLoop (uos ++ [uo]) rest
    | (_, some err) => (uos, some (.wrap msgElem err))

def UserOrganizations.Scan (uos : UserOrganizations) (src : Src) :
    UserOrganizations × Option GoErr :=
  match pq.StringArray.Scan src with
  | .error e => (uos, some (.wrap msgArray e))
  | .ok arr => UserOrganizations.scanLoop uos arr

/-! ## Statement helpers and concrete inputs -/

/-- The composite literal `(f0,f1,f2)` built from three raw fields. -/
def comp3 (f0 f1 f2 : Str) : Str := '(' :: (f0 ++ ',' :: (f1 ++ ',' :: f2)) ++ [')']

/-- The composite literal `(f0,f1,f2,f3)` built from four raw fields. -/
def comp4 (f0 f1 f2 f3 : Str) : Str :=
  '(' :: (f0 ++ ',' :: (f1 ++ ',' :: (f2 ++ ',' :: f3))) ++ [')']

/-- The number of comma-separated fields of a composite literal, exactly as the
decoders compute it: trim the paren cutset, split on commas, count. -/
def fieldCount (s : Str) : Nat := (splitComma (goTrim isParen s)).length

/-- Whether the modelled JSON object (if any) contains the given key. -/
def hasKey (k : String) (o : Option (List (String × GoTime))) : Bool :=
  match o with
  | none => false
  | some l => l.any fun p => p.1 == k

/-- A field that contains no comma, parenthesis or double quote, so it passes
unchanged through the splitting and trimming steps of the decoders. -/
def safeField (f : Str) : Prop :=
  ∀ c ∈ f, c ≠ ',' ∧ isParen c = false ∧ isQuote c = false

/-- A field that contains no comma and no parenthesis (it may contain quotes),
so it survives the paren-trimming and comma-splitting steps unchanged. -/
def rawField (f : Str) : Prop :=
  ∀ c ∈ f, c ≠ ',' ∧ isParen c = false

/-- Decode one array element into a fresh `UserOrganization{}`, keeping the
value (the way the loop of `UserOrganizations.Scan` uses it). -/
def decodeElem (e : Str) : UserOrganization :=
  (UserOrganization.Scan zeroUO (.str e)).1

/-- `UserOrganization.Scan` of one element succeeded. -/
def elemOk (e : Str) : Prop := (UserOrganization.Scan zeroUO (.str e)).2 = none

def tsA : Str := "2024-01-01 00:00:00".toList
def tsB : Str := "2024-01-02 00:00:00".toList
def tsC : Str := "2024-01-03 00:00:00".toList
def tsZeroS : Str := "0001-01-01 00:00:00".toList
def tA : GoTime := ⟨2024, 1, 1, 0, 0, 0⟩
def tB : GoTime := ⟨2024, 1, 2, 0, 0, 0⟩
def tC : GoTime := ⟨2024, 1, 3, 0, 0, 0⟩
def uuidZ : Str := "00000000-0000-0000-0000-000000000000".toList
def uuidZBytes : uuid.UUID := [0, 0, 0, 0, 0, 0, 0, 0, 0, 0, 0, 0, 0, 0, 0, 0]

/-- A well-formed 7-field membership composite. -/
def elem7 : Str :=
  ("(00000000-0000-0000-0000-000000000000,00000000-0000-0000-0000-000000000000," ++
   "user,00000000-0000-0000-0000-000000000000," ++
   "\"2024-01-01 00:00:00\",\"2024-01-02 00:00:00\",)").toList

/-- The same membership composite with an extra eighth field appended. -/
def elem8 : Str :=
  ("(00000000-0000-0000-0000-000000000000,00000000-0000-0000-0000-000000000000," ++
   "user,00000000-0000-0000-0000-000000000000," ++
   "\"2024-01-01 00:00:00\",\"2024-01-02 00:00:00\",,extra)").toList

/-- A 2-field composite handed to the membership decoder. -/
def elem2 : Str := "(a,b)".toList

/-- A 7-field membership composite whose role field is empty. -/
def elemBadRole : Str :=
  ("(00000000-0000-0000-0000-000000000000,00000000-0000-0000-0000-000000000000," ++
   ",00000000-0000-0000-0000-000000000000," ++
   "\"2024-01-01 00:00:00\",\"2024-01-02 00:00:00\",)").toList

/-- A 7-field membership composite whose role field is the quoted string
`"admin"`. -/
def elemQuotedRole : Str :=
  ("(00000000-0000-0000-0000-000000000000,00000000-0000-0000-0000-000000000000," ++
   "\"admin\",00000000-0000-0000-0000-000000000000," ++
   "\"2024-01-01 00:00:00\",\"2024-01-02 00:00:00\",)").toList

/-- A second well-formed membership composite (role `admin`). -/
def elem7b : Str :=
  ("(00000000-0000-0000-0000-000000000000,00000000-0000-0000-0000-000000000000," ++
   "admin,00000000-0000-0000-0000-000000000000," ++
   "\"2024-01-01 00:00:00\",\"2024-01-02 00:00:00\",)").toList

/-- A database array literal holding two well-formed membership composites. -/
def arr2 : Str :=
  ("\x7b\"(00000000-0000-0000-0000-000000000000,00000000-0000-0000-0000-000000000000," ++
   "user,00000000-0000-0000-0000-000000000000," ++
   "\\\"2024-01-01 00:00:00\\\",\\\"2024-01-02 00:00:00\\\",)\"," ++
   "\"(00000000-0000-0000-0000-000000000000,00000000-0000-0000-0000-000000000000," ++
   "admin,00000000-0000-0000-0000-000000000000," ++
   "\\\"2024-01-01 00:00:00\\\",\\\"2024-01-02 00:00:00\\\",)\"\x7d").toList

/-- An array literal whose first element is well-formed and whose second
element has an empty role, so its decode fails. -/
def arrBad : Str :=
  ("\x7b\"(00000000-0000-0000-0000-000000000000,00000000-0000-0000-0000-000000000000," ++
   "user,00000000-0000-0000-0000-000000000000," ++
   "\\\"2024-01-01 00:00:00\\\",\\\"2024-01-02 00:00:00\\\",)\"," ++
   "\"(00000000-0000-0000-0000-000000000000,00000000-0000-0000-0000-000000000000," ++
   ",00000000-0000-0000-0000-000000000000," ++
   "\\\"2024-01-01 00:00:00\\\",\\\"2024-01-02 00:00:00\\\",)\"\x7d").toList

/-! ## Character classes -/

/-- The characters a timestamp accepted by `pq.ParseTimestamp` can contain. -/
def tsChar (c : Char) : Bool := c.isDigit || c == '-' || c == ' ' || c == ':'

/-- The characters a textual UUID accepted by `uuid.Parse` can contain. -/
def uuidChar (c : Char) : Bool := isHexChar c || c == '-'

lemma bclass_ne (p : Char → Bool) (c x : Char) (h : p c = true) (hx : p x = false) :
    c ≠ x := by
  rintro rfl
  rw [h] at hx
  exact absurd hx (by simp)

lemma isParen_eq_false (c : Char) (h1 : c ≠ '(') (h2 : c ≠ ')') : isParen c = false := by
  simp [isParen, h1, h2]

lemma isQuote_eq_false (c : Char) (h : c ≠ '"') : isQuote c = false := by
  simp [isQuote, h]

lemma tsChar_safe (c : Char) (h : tsChar c = true) :
    c ≠ ',' ∧ isParen c = false ∧ isQuote c = false :=
  ⟨bclass_ne tsChar c ',' h (by decide),
   isParen_eq_false c (bclass_ne tsChar c '(' h (by decide))
     (bclass_ne tsChar c ')' h (by decide)),
   isQuote_eq_false c (bclass_ne tsChar c '"' h (by decide))⟩

lemma uuidChar_safe (c : Char) (h : uuidChar c = true) :
    c ≠ ',' ∧ isParen c = false ∧ isQuote c = false :=
  ⟨bclass_ne uuidChar c ',' h (by decide),
   isParen_eq_false c (bclass_ne uuidChar c '(' h (by decide))
     (bclass_ne uuidChar c ')' h (by decide)),
   isQuote_eq_false c (bclass_ne uuidChar c '"' h (by decide))⟩

/-! ## Trim lemmas -/

lemma trimLeftChars_cons_pos (p : Char → Bool) (c : Char) (s : Str) (h : p c = true) :
    trimLeftChars p (c :: s) = trimLeftChars p s := by
  simp [trimLeftChars, h]

lemma trimLeftChars_cons_neg (p : Char → Bool) (c : Char) (s : Str) (h : p c = false) :
    trimLeftChars p (c :: s) = c :: s := by
  simp [trimLeftChars, h]

lemma trimLeftChars_append_all (p : Char → Bool) (a b : Str)
    (h : ∀ c ∈ a, p c = true) : trimLeftChars p (a ++ b) = trimLeftChars p b := by
  induction a with
  | nil => rfl
  | cons c a ih =>
    rw [List.cons_append, trimLeftChars_cons_pos p c _ (h c (by simp))]
    exact ih fun x hx => h x (by simp [hx])

lemma trimLeftChars_all (p : Char → Bool) (a : Str) (h : ∀ c ∈ a, p c = true) :
    trimLeftChars p a = [] := by
  have := trimLeftChars_append_all p a [] h
  simpa using this

lemma trimLeftChars_of_not (p : Char → Bool) (l : Str) (h : ∀ c ∈ l, p c = false) :
    trimLeftChars p l = l := by
  cases l with
  | nil => rfl
  | cons c s => exact trimLeftChars_cons_neg p c s (h c (by simp))

lemma trimRightChars_append_all (p : Char → Bool) (a b : Str)
    (h : ∀ c ∈ b, p c = true) : trimRightChars p (a ++ b) = trimRightChars p a := by
  unfold trimRightChars
  rw [List.reverse_append, trimLeftChars_append_all p b.reverse a.reverse
    fun c hc => h c (List.mem_reverse.mp hc)]

lemma trimRightChars_of_not (p : Char → Bool) (l : Str) (h : ∀ c ∈ l, p c = false) :
    trimRightChars p l = l := by
  unfold trimRightChars
  rw [trimLeftChars_of_not p l.reverse fun c hc => h c (List.mem_reverse.mp hc),
    List.reverse_reverse]

lemma goTrim_of_not (p : Char → Bool) (l : Str) (h : ∀ c ∈ l, p c = false) :
    goTrim p l = l := by
  unfold goTrim
  rw [trimLeftChars_of_not p l h, trimRightChars_of_not p l h]

/-- `strings.Trim` removes an all-cutset prefix and suffix around a core that
contains no cutset character at all. -/
lemma goTrim_sandwich (p : Char → Bool) (pre core post : Str)
    (hpre : ∀ c ∈ pre, p c = true) (hpost : ∀ c ∈ post, p c = true)
    (hcore : ∀ c ∈ core, p c = false) :
    goTrim p (pre ++ core ++ post) = core := by
  unfold goTrim
  rw [List.append_assoc, trimLeftChars_append_all p pre (core ++ post) hpre]
  cases core with
  | nil =>
    rw [List.nil_append, trimLeftChars_all p post hpost]
    rfl
  | cons c0 mid =>
    rw [List.cons_append, trimLeftChars_cons_neg p c0 (mid ++ post) (hcore c0 (by simp)),
      ← List.cons_append, trimRightChars_append_all p (c0 :: mid) post hpost,
      trimRightChars_of_not p (c0 :: mid) hcore]

/-! ## Split and join lemmas -/

lemma splitComma_ne_nil (s : Str) : splitComma s ≠ [] := by
  induction s with
  | nil => simp [splitComma]
  | cons c rest ih =>
    by_cases hc : c = ','
    · simp [splitComma, hc]
    · simp only [splitComma, if_neg hc]
      cases h : splitComma rest with
      | nil => simp
      | cons a b => simp

lemma splitComma_append_comma (a b : Str) (ha : ∀ c ∈ a, c ≠ ',') :
    splitComma (a ++ ',' :: b) = a :: splitComma b := by
  induction a with
  | nil => simp [splitComma]
  | cons c a ih =>
    have hc : c ≠ ',' := ha c (by simp)
    rw [List.cons_append]
    simp only [splitComma, if_neg hc]
    rw [ih fun x hx => ha x (by simp [hx])]

lemma splitComma_of_not (a : Str) (ha : ∀ c ∈ a, c ≠ ',') : splitComma a = [a] := by
  induction a with
  | nil => rfl
  | cons c a ih =>
    have hc : c ≠ ',' := ha c (by simp)
    simp only [splitComma, if_neg hc]
    rw [ih fun x hx => ha x (by simp [hx])]

lemma joinComma_three (a b c : Str) : joinComma [a, b, c] = a ++ ',' :: (b ++ ',' :: c) := by
  simp [joinComma]

/-! ## Shape of strings accepted by the external parsers -/

/-- A string accepted by the timestamp parser is nonempty and consists only of
digits, hyphens, spaces and colons — in particular it contains no comma, no
parenthesis and no double quote. -/
lemma ParseTimestamp_shape (t : Str) (g : GoTime) (h : pq.ParseTimestamp t = .ok g) :
    t ≠ [] ∧ ∀ c ∈ t, tsChar c = true := by
  unfold pq.ParseTimestamp at h
  split at h
  · split at h
    · rename_i hdig
      obtain ⟨hy1, hy2, hy3, hy4, hm1, hm2, hd1, hd2, hh1, hh2, hn1, hn2, he1, he2⟩ := hdig
      refine ⟨by simp, ?_⟩
      intro c hc
      simp only [List.mem_cons, List.not_mem_nil, or_false] at hc
      rcases hc with rfl | rfl | rfl | rfl | rfl | rfl | rfl | rfl | rfl | rfl | rfl |
        rfl | rfl | rfl | rfl | rfl | rfl | rfl | rfl
      all_goals simp [tsChar, *]
    · exact absurd h (by simp)
  · exact absurd h (by simp)

/-- A string accepted by `uuid.Parse` is nonempty and consists only of hex
digits and hyphens — in particular it contains no comma, no parenthesis and
no double quote. -/
lemma uuidParse_shape (u : Str) (bs : uuid.UUID) (h : uuid.Parse u = some bs) :
    u ≠ [] ∧ ∀ c ∈ u, uuidChar c = true := by
  unfold uuid.Parse at h
  split at h
  · rename_i hcond
    obtain ⟨hlen, hdash, hall⟩ := hcond
    constructor
    · intro hnil
      rw [hnil] at hlen
      exact absurd hlen (by simp)
    · intro c hc
      obtain ⟨i, hi, rfl⟩ := List.mem_iff_getElem.mp hc
      have hi36 : i < 36 := by rwa [hlen] at hi
      have := hall i (List.mem_range.mpr hi36)
      rcases this with hdashPos | hhex
      · have := hdash i hdashPos
        rw [List.getD_eq_getElem u ' ' hi] at this
        rw [this]
        decide
      · rw [List.getD_eq_getElem u ' ' hi] at hhex
        simp [uuidChar, hhex]
  · exact absurd h (by simp)

lemma safeField_of_ts (t : Str) (g : GoTime) (h : pq.ParseTimestamp t = .ok g) :
    safeField t :=
  fun c hc => tsChar_safe c ((ParseTimestamp_shape t g h).2 c hc)

lemma safeField_of_uuid (u : Str) (bs : uuid.UUID) (h : uuid.Parse u = some bs) :
    safeField u :=
  fun c hc => uuidChar_safe c ((uuidParse_shape u bs h).2 c hc)

lemma safeField_nil : safeField [] := by
  intro c hc
  simp at hc

lemma quoteTrim_safe (f : Str) (h : safeField f) : goTrim isQuote f = f :=
  goTrim_of_not isQuote f fun c hc => (h c hc).2.2

lemma rawField_of_safe (f : Str) (h : safeField f) : rawField f :=
  fun c hc => ⟨(h c hc).1, (h c hc).2.1⟩

lemma rawField_nil : rawField [] := by
  intro c hc
  simp at hc

/-! ## Field extraction from composite literals -/

lemma fields_comp3 (f0 f1 f2 : Str) (h0 : rawField f0) (h1 : rawField f1)
    (h2 : rawField f2) :
    splitComma (goTrim isParen (comp3 f0 f1 f2)) = [f0, f1, f2] := by
  have hcore : ∀ c ∈ f0 ++ ',' :: (f1 ++ ',' :: f2), isParen c = false := by
    intro c hc
    rcases List.mem_append.mp hc with hc0 | hc1
    · exact (h0 c hc0).2
    · rcases List.mem_cons.mp hc1 with rfl | hc2
      · decide
      · rcases List.mem_append.mp hc2 with hcf | hcg
        · exact (h1 c hcf).2
        · rcases List.mem_cons.mp hcg with rfl | hch
          · decide
          · exact (h2 c hch).2
  have htrim : goTrim isParen (comp3 f0 f1 f2) = f0 ++ ',' :: (f1 ++ ',' :: f2) := by
    have hs := goTrim_sandwich isParen ['('] (f0 ++ ',' :: (f1 ++ ',' :: f2)) [')']
      (by intro c hc; simp at hc; subst hc; decide)
      (by intro c hc; simp at hc; subst hc; decide) hcore
    simpa [comp3] using hs
  rw [htrim, splitComma_append_comma f0 _ (fun c hc => (h0 c hc).1),
    splitComma_append_comma f1 _ (fun c hc => (h1 c hc).1),
    splitComma_of_not f2 (fun c hc => (h2 c hc).1)]

lemma fields_comp4 (f0 f1 f2 f3 : Str) (h0 : rawField f0) (h1 : rawField f1)
    (h2 : rawField f2) (h3 : rawField f3) :
    splitComma (goTrim isParen (comp4 f0 f1 f2 f3)) = [f0, f1, f2, f3] := by
  have hcore : ∀ c ∈ f0 ++ ',' :: (f1 ++ ',' :: (f2 ++ ',' :: f3)), isParen c = false := by
    intro c hc
    rcases List.mem_append.mp hc with hc0 | hc1
    · exact (h0 c hc0).2
    · rcases List.mem_cons.mp hc1 with rfl | hc2
      · decide
      · rcases List.mem_append.mp hc2 with hcf | hcg
        · exact (h1 c hcf).2
        · rcases List.mem_cons.mp hcg with rfl | hch
          · decide
          · rcases List.mem_append.mp hch with hci | hcj
            · exact (h2 c hci).2
            · rcases List.mem_cons.mp hcj with rfl | hck
              · decide
              · exact (h3 c hck).2
  have htrim : goTrim isParen (comp4 f0 f1 f2 f3) =
      f0 ++ ',' :: (f1 ++ ',' :: (f2 ++ ',' :: f3)) := by
    have hs := goTrim_sandwich isParen ['(']
      (f0 ++ ',' :: (f1 ++ ',' :: (f2 ++ ',' :: f3))) [')']
      (by intro c hc; simp at hc; subst hc; decide)
      (by intro c hc; simp at hc; subst hc; decide) hcore
    simpa [comp4] using hs
  rw [htrim, splitComma_append_comma f0 _ (fun c hc => (h0 c hc).1),
    splitComma_append_comma f1 _ (fun c hc => (h1 c hc).1),
    splitComma_append_comma f2 _ (fun c hc => (h2 c hc).1),
    splitComma_of_not f3 (fun c hc => (h3 c hc).1)]

/-! ## Behaviour of the timestamp and metadata decoders on well-formed input -/

lemma goTrim_nil (p : Char → Bool) : goTrim p [] = [] := rfl

lemma scan1_pair (tm : TimeMetadata) (t1 t2 : Str) (c u : GoTime)
    (h1 : pq.ParseTimestamp t1 = .ok c) (h2 : pq.ParseTimestamp t2 = .ok u) :
    TimeMetadata.Scan1 tm (.str (comp3 t1 t2 [])) =
      ({tm with CreatedAt := c, UpdatedAt := u}, none) := by
  have sf1 := safeField_of_ts t1 c h1
  have sf2 := safeField_of_ts t2 u h2
  have hf := fields_comp3 t1 t2 [] (rawField_of_safe t1 sf1) (rawField_of_safe t2 sf2) rawField_nil
  simp only [TimeMetadata.Scan1, ScanToString, hf]
  rw [if_pos (by simp)]
  simp only [List.map_cons, List.map_nil, quoteTrim_safe t1 sf1, quoteTrim_safe t2 sf2,
    goTrim_nil]
  rw [h1, h2]
  simp

lemma scan1_triple (tm : TimeMetadata) (t1 t2 t3 : Str) (c u d : GoTime)
    (h1 : pq.ParseTimestamp t1 = .ok c) (h2 : pq.ParseTimestamp t2 = .ok u)
    (h3 : pq.ParseTimestamp t3 = .ok d) :
    TimeMetadata.Scan1 tm (.str (comp3 t1 t2 t3)) =
      ({tm with CreatedAt := c, UpdatedAt := u, DeletedAt := some d}, none) := by
  have sf1 := safeField_of_ts t1 c h1
  have sf2 := safeField_of_ts t2 u h2
  have sf3 := safeField_of_ts t3 d h3
  have ht3 : t3 ≠ [] := (ParseTimestamp_shape t3 d h3).1
  have hf := fields_comp3 t1 t2 t3 (rawField_of_safe t1 sf1) (rawField_of_safe t2 sf2) (rawField_of_safe t3 sf3)
  simp only [TimeMetadata.Scan1, ScanToString, hf]
  rw [if_pos (by simp)]
  simp only [List.map_cons, List.map_nil, quoteTrim_safe t1 sf1, quoteTrim_safe t2 sf2,
    quoteTrim_safe t3 sf3]
  rw [h1, h2]
  simp only [if_neg ht3]
  rw [h3]

lemma scan1_count_ne (tm : TimeMetadata) (s : Str) (h : fieldCount s ≠ 3) :
    TimeMetadata.Scan1 tm (.str s) = (tm, some (.new msgTMCount)) := by
  unfold fieldCount at h
  simp only [TimeMetadata.Scan1, ScanToString]
  rw [if_neg h]

lemma metaScan_count_ne (m : Metadata) (s : Str) (h : fieldCount s ≠ 4) :
    Metadata.Scan1 m (.str s) = (m, some (.new msgMetaCount)) := by
  unfold fieldCount at h
  simp only [Metadata.Scan1, ScanToString]
  rw [if_neg h]

lemma metaScan_ok (m : Metadata) (ui t1 t2 : Str) (bs : uuid.UUID) (c u : GoTime)
    (hu : uuid.Parse ui = some bs)
    (h1 : pq.ParseTimestamp t1 = .ok c) (h2 : pq.ParseTimestamp t2 = .ok u) :
    Metadata.Scan1 m (.str (comp4 ui t1 t2 [])) =
      (Metadata.mk (some (User.mk (some bs) [] [] none zeroMetadata))
        {m.TimeMetadata with CreatedAt := c, UpdatedAt := u}, none) := by
  have sfu := safeField_of_uuid ui bs hu
  have sf1 := safeField_of_ts t1 c h1
  have sf2 := safeField_of_ts t2 u h2
  have hf := fields_comp4 ui t1 t2 [] (rawField_of_safe ui sfu) (rawField_of_safe t1 sf1) (rawField_of_safe t2 sf2) rawField_nil
  simp only [Metadata.Scan1, ScanToString, hf]
  rw [if_pos (by simp)]
  simp only [List.map_cons, List.map_nil, quoteTrim_safe ui sfu, quoteTrim_safe t1 sf1,
    quoteTrim_safe t2 sf2, goTrim_nil]
  rw [hu]
  have hjoin : ('(' :: joinComma [t1, t2, ([] : Str)] ++ [')']) = comp3 t1 t2 [] := by
    simp [joinComma, comp3]
  rw [hjoin, scan1_pair m.TimeMetadata t1 t2 c u h1 h2]

/-! ## Behaviour of the array-element loop -/

lemma scanLoop_ok (elems : List Str) : ∀ uos : UserOrganizations,
    (∀ e ∈ elems, elemOk e) →
    UserOrganizations.scanLoop uos elems = (uos ++ elems.map decodeElem, none) := by
  induction elems with
  | nil =>
    intro uos _
    simp [UserOrganizations.scanLoop]
  | cons e rest ih =>
    intro uos hall
    have he : (UserOrganization.Scan zeroUO (.str e)).2 = none := hall e (by simp)
    have hsc : UserOrganization.Scan zeroUO (.str e) = (decodeElem e, none) := by
      unfold decodeElem
      rw [← he]
    simp only [UserOrganizations.scanLoop]
    rw [hsc]
    show UserOrganizations.scanLoop (uos ++ [decodeElem e]) rest = _
    rw [ih (uos ++ [decodeElem e]) (fun x hx => hall x (by simp [hx]))]
    simp

lemma scanLoop_upto_failure (good : List Str) : ∀ (uos : UserOrganizations) (bad : Str)
    (rest : List Str) (err : GoErr),
    (∀ e ∈ good, elemOk e) →
    (UserOrganization.Scan zeroUO (.str bad)).2 = some err →
    UserOrganizations.scanLoop uos (good ++ bad :: rest) =
      (uos ++ good.map decodeElem, some (.wrap msgElem err)) := by
  induction good with
  | nil =>
    intro uos bad rest err _ hbad
    have hsc : UserOrganization.Scan zeroUO (.str bad) =
        ((UserOrganization.Scan zeroUO (.str bad)).1, some err) := by
      rw [← hbad]
    simp only [List.nil_append, UserOrganizations.scanLoop]
    rw [hsc]
    simp
  | cons e g ih =>
    intro uos bad rest err hall hbad
    have he : (UserOrganization.Scan zeroUO (.str e)).2 = none := hall e (by simp)
    have hsc : UserOrganization.Scan zeroUO (.str e) = (decodeElem e, none) := by
      unfold decodeElem
      rw [← he]
    simp only [List.cons_append, UserOrganizations.scanLoop]
    rw [hsc]
    show UserOrganizations.scanLoop (uos ++ [decodeElem e]) (g ++ bad :: rest) = _
    rw [ih (uos ++ [decodeElem e]) bad rest err (fun x hx => hall x (by simp [hx])) hbad]
    simp

lemma scanLoop_shift (arr : List Str) : ∀ uos : UserOrganizations,
    UserOrganizations.scanLoop uos arr =
      (uos ++ (UserOrganizations.scanLoop [] arr).1,
       (UserOrganizations.scanLoop [] arr).2) := by
  induction arr with
  | nil =>
    intro uos
    simp [UserOrganizations.scanLoop]
  | cons e rest ih =>
    intro uos
    simp only [UserOrganizations.scanLoop]
    rcases hE : UserOrganization.Scan zeroUO (.str e) with ⟨uo, err⟩
    cases err with
    | none =>
      dsimp only
      rw [ih (uos ++ [uo]), ih ([] ++ [uo])]
      simp
    | some er =>
      dsimp only
      simp

/-! ## Behaviour of the re-encoders -/

lemma marshal_no_deleted (tm : TimeMetadata) (h : tm.DeletedAt = none) :
    hasKey keyDeletedAt (TimeMetadata.MarshalJSON tm) = false := by
  unfold TimeMetadata.MarshalJSON
  rw [h]
  rcases hc : tm.CreatedAt.IsZero <;> rcases hu : tm.UpdatedAt.IsZero <;>
    simp [hasKey, keyDeletedAt]

lemma marshal_all_nonzero (c u d : GoTime) (hc : c.IsZero = false)
    (hu : u.IsZero = false) (hd : d.IsZero = false) :
    TimeMetadata.MarshalJSON ⟨c, u, some d⟩ =
      some [("created_at", c), ("updated_at", u), ("deleted_at", d)] := by
  unfold TimeMetadata.MarshalJSON
  simp [hc, hu, hd]

lemma marshalTM_all_empty (tm : TimeMetadata) (hc : tm.CreatedAt.IsZero = true)
    (hu : tm.UpdatedAt.IsZero = true)
    (hd : tm.DeletedAt = none ∨ ∃ d, tm.DeletedAt = some d ∧ d.IsZero = true) :
    TimeMetadata.MarshalJSON tm = none := by
  unfold TimeMetadata.MarshalJSON
  rcases hd with hd | ⟨d, hd, hdz⟩ <;> rw [hd] <;> simp [hc, hu, *]

lemma marshalMeta_all_empty (m : Metadata) (ho : m.Owner = none)
    (hc : m.TimeMetadata.CreatedAt.IsZero = true)
    (hu : m.TimeMetadata.UpdatedAt.IsZero = true)
    (hd : m.TimeMetadata.DeletedAt = none ∨
      ∃ d, m.TimeMetadata.DeletedAt = some d ∧ d.IsZero = true) :
    Metadata.MarshalJSON m = some [] := by
  unfold Metadata.MarshalJSON
  rw [ho]
  rcases hd with hd | ⟨d, hd, hdz⟩ <;> rw [hd] <;> simp [hc, hu, *]

/-! ## Quoted fields -/

lemma quotedField_raw (t : Str) (h : safeField t) : rawField ('"' :: t ++ ['"']) := by
  intro c hc
  rcases List.mem_cons.mp hc with rfl | hc2
  · exact ⟨by decide, by decide⟩
  · rcases List.mem_append.mp hc2 with hcf | hcg
    · exact ⟨(h c hcf).1, (h c hcf).2.1⟩
    · rcases List.mem_cons.mp hcg with rfl | hch
      · exact ⟨by decide, by decide⟩
      · simp at hch

lemma quoteTrim_quoted (t : Str) (h : safeField t) :
    goTrim isQuote ('"' :: t ++ ['"']) = t := by
  have hs := goTrim_sandwich isQuote ['"'] t ['"']
    (by intro c hc; simp at hc; subst hc; decide)
    (by intro c hc; simp at hc; subst hc; decide)
    (fun c hc => (h c hc).2.2)
  simpa using hs

/-- A quoted first field decodes exactly like its unquoted content: the
quote-trimming step of `TimeMetadata.Scan1` removes the surrounding quotes. -/
lemma scan1_pair_q0 (tm : TimeMetadata) (t1 t2 : Str) (c u : GoTime)
    (h1 : pq.ParseTimestamp t1 = .ok c) (h2 : pq.ParseTimestamp t2 = .ok u) :
    TimeMetadata.Scan1 tm (.str (comp3 ('"' :: t1 ++ ['"']) t2 [])) =
      ({tm with CreatedAt := c, UpdatedAt := u}, none) := by
  have sf1 := safeField_of_ts t1 c h1
  have sf2 := safeField_of_ts t2 u h2
  have hf := fields_comp3 ('"' :: t1 ++ ['"']) t2 [] (quotedField_raw t1 sf1)
    (rawField_of_safe t2 sf2) rawField_nil
  simp only [TimeMetadata.Scan1, ScanToString, hf]
  rw [if_pos (by simp)]
  simp only [List.map_cons, List.map_nil, quoteTrim_quoted t1 sf1, quoteTrim_safe t2 sf2,
    goTrim_nil]
  rw [h1, h2]
  simp

/-! ## Paren wrapping -/

lemma goTrim_wrap_parens (s : Str) (hs : ∀ c ∈ s, isParen c = false) (k j : Nat) :
    goTrim isParen (List.replicate k '(' ++ s ++ List.replicate j ')') = s :=
  goTrim_sandwich isParen (List.replicate k '(') s (List.replicate j ')')
    (by intro c hc; rw [List.eq_of_mem_replicate hc]; decide)
    (by intro c hc; rw [List.eq_of_mem_replicate hc]; decide) hs

/-! # The claims -/

/-- Claim C1.  The claim says every composite whose field count differs from
the decoder's arity (7 for `UserOrganization.Scan`) fails with a field-count
error and is never silently truncated.  The code contradicts this for the
membership decoder, which performs no field-count check at all: an 8-field
composite decodes successfully to exactly the same value as its 7-field
prefix (the extra field is silently dropped), and a 2-field composite makes
the Go code panic with an index-out-of-range runtime error instead of
returning a field-count error. -/
theorem C1_membership_arity_unchecked :
    UserOrganization.Scan zeroUO (.str elem8) = UserOrganization.Scan zeroUO (.str elem7) ∧
    (UserOrganization.Scan zeroUO (.str elem7)).2 = none ∧
    (UserOrganization.Scan zeroUO (.str elem2)).2 = some panicErr :=
  ⟨rfl, rfl, rfl⟩

/-- Claim C2 (amended).  When `UserOrganizations.Scan` hits a failing element,
it returns the element's error wrapped with positional context, but the
receiver is not left unchanged: it retains every element decoded before the
failing one.  (The claim's statement that an erroring decode leaves the
receiver unchanged is refuted by `C2_partial_state_surfaced`.) -/
theorem C2_error_keeps_decoded_elems (uos : UserOrganizations) (src : Src)
    (good : List Str) (bad : Str) (rest : List Str) (err : GoErr)
    (hsa : pq.StringArray.Scan src = .ok (good ++ bad :: rest))
    (hgood : ∀ e ∈ good, elemOk e)
    (hbad : (UserOrganization.Scan zeroUO (.str bad)).2 = some err) :
    UserOrganizations.Scan uos src =
      (uos ++ good.map decodeElem, some (.wrap msgElem err)) := by
  simp only [UserOrganizations.Scan, hsa]
  exact scanLoop_upto_failure good uos bad rest err hgood hbad

/-- Witness for C2: a two-element array whose second element has an empty
role decodes its first element into the receiver and then fails. -/
theorem C2_error_keeps_decoded_elems_witness :
    UserOrganizations.Scan [] (.str arrBad) =
      ([] ++ [elem7].map decodeElem, some (.wrap msgElem (.new msgRole))) :=
  C2_error_keeps_decoded_elems [] (.str arrBad) [elem7] elemBadRole [] (.new msgRole)
    (by rfl)
    (by intro e he; simp only [List.mem_singleton] at he; subst he; rfl)
    (by rfl)

/-- Counterexample to C2 as stated: `UserOrganizations.Scan` on a two-element
array whose second element fails returns an error, yet the receiver (initially
empty) now holds one decoded element — a partial sequence surfaced to the
caller. -/
theorem C2_partial_state_surfaced :
    (UserOrganizations.Scan [] (.str arrBad)).2.isSome = true ∧
    (UserOrganizations.Scan [] (.str arrBad)).1.length = 1 :=
  ⟨rfl, rfl⟩

/-- Claim C3.  If the array literal parses into N element strings and every
element decodes successfully, `UserOrganizations.Scan` on an empty receiver
succeeds and produces exactly the N decoded values in source order. -/
theorem C3_array_decodes_all_in_order (src : Src) (elems : List Str)
    (hsa : pq.StringArray.Scan src = .ok elems) (hall : ∀ e ∈ elems, elemOk e) :
    UserOrganizations.Scan [] src = (elems.map decodeElem, none) ∧
    (UserOrganizations.Scan [] src).1.length = elems.length := by
  have hmain : UserOrganizations.Scan [] src = (elems.map decodeElem, none) := by
    simp only [UserOrganizations.Scan, hsa]
    simpa using scanLoop_ok elems [] hall
  refine ⟨hmain, ?_⟩
  rw [hmain]
  simp

/-- Witness for C3: a concrete two-element array literal decodes to exactly
two values. -/
theorem C3_array_decodes_all_in_order_witness :
    UserOrganizations.Scan [] (.str arr2) = ([elem7, elem7b].map decodeElem, none) ∧
    (UserOrganizations.Scan [] (.str arr2)).1.length = [elem7, elem7b].length :=
  C3_array_decodes_all_in_order (.str arr2) [elem7, elem7b]
    (by rfl)
    (by
      intro e he
      simp only [List.mem_cons, List.not_mem_nil, or_false] at he
      rcases he with rfl | rfl
      · rfl
      · rfl)

/-- Claim C4 (amended).  Decoding a valid 3-field timestamp composite with a
non-empty third field and then re-encoding round-trips all three timestamps
exactly, provided all three parse to non-zero instants; a zero instant is
omitted by the re-encoder (see `C4_zero_time_not_roundtripped`). -/
theorem C4_roundtrip_nonzero (tm : TimeMetadata) (t1 t2 t3 : Str) (c u d : GoTime)
    (h1 : pq.ParseTimestamp t1 = .ok c) (h2 : pq.ParseTimestamp t2 = .ok u)
    (h3 : pq.ParseTimestamp t3 = .ok d)
    (hc : c ≠ zeroTime) (hu : u ≠ zeroTime) (hd : d ≠ zeroTime) :
    TimeMetadata.Scan1 tm (.str (comp3 t1 t2 t3)) =
      ({tm with CreatedAt := c, UpdatedAt := u, DeletedAt := some d}, none) ∧
    TimeMetadata.MarshalJSON (TimeMetadata.Scan1 tm (.str (comp3 t1 t2 t3))).1 =
      some [("created_at", c), ("updated_at", u), ("deleted_at", d)] := by
  have hscan := scan1_triple tm t1 t2 t3 c u d h1 h2 h3
  refine ⟨hscan, ?_⟩
  rw [hscan]
  exact marshal_all_nonzero c u d (by simp [GoTime.IsZero, hc])
    (by simp [GoTime.IsZero, hu]) (by simp [GoTime.IsZero, hd])

/-- Witness for C4: concrete timestamps round-trip through decode and
re-encode. -/
theorem C4_roundtrip_nonzero_witness :
    TimeMetadata.Scan1 zeroTM (.str (comp3 tsA tsB tsC)) =
      ({zeroTM with CreatedAt := tA, UpdatedAt := tB, DeletedAt := some tC}, none) ∧
    TimeMetadata.MarshalJSON (TimeMetadata.Scan1 zeroTM (.str (comp3 tsA tsB tsC))).1 =
      some [("created_at", tA), ("updated_at", tB), ("deleted_at", tC)] :=
  C4_roundtrip_nonzero zeroTM tsA tsB tsC tA tB tC (by rfl) (by rfl) (by rfl)
    (by decide) (by decide) (by decide)

/-- Counterexample to C4 as stated: the composite
`(0001-01-01 00:00:00,2024-01-02 00:00:00,2024-01-03 00:00:00)` is valid and
has a non-empty third field, and it decodes successfully — but its first
timestamp is Go's zero time, so the re-encoding omits the `created_at` key
entirely and the three timestamps do not round-trip. -/
theorem C4_zero_time_not_roundtripped :
    (TimeMetadata.Scan1 zeroTM (.str (comp3 tsZeroS tsB tsC))).2 = none ∧
    tsC ≠ [] ∧
    hasKey keyCreatedAt
      (TimeMetadata.MarshalJSON (TimeMetadata.Scan1 zeroTM (.str (comp3 tsZeroS tsB tsC))).1)
      = false :=
  ⟨rfl, by decide, rfl⟩

/-- Claim C5.  A valid 3-field timestamp composite with an empty third field
decodes successfully (a state distinct from a parse failure) with `DeletedAt`
absent, and re-encoding the result omits the `deleted_at` key entirely. -/
theorem C5_empty_deleted_absent (tm : TimeMetadata) (t1 t2 : Str) (c u : GoTime)
    (h1 : pq.ParseTimestamp t1 = .ok c) (h2 : pq.ParseTimestamp t2 = .ok u)
    (hdel : tm.DeletedAt = none) :
    TimeMetadata.Scan1 tm (.str (comp3 t1 t2 [])) =
      ({tm with CreatedAt := c, UpdatedAt := u}, none) ∧
    (TimeMetadata.Scan1 tm (.str (comp3 t1 t2 []))).1.DeletedAt = none ∧
    hasKey keyDeletedAt
      (TimeMetadata.MarshalJSON (TimeMetadata.Scan1 tm (.str (comp3 t1 t2 []))).1) = false := by
  have hscan := scan1_pair tm t1 t2 c u h1 h2
  refine ⟨hscan, ?_, ?_⟩
  · rw [hscan]
    exact hdel
  · rw [hscan]
    exact marshal_no_deleted _ hdel

/-- Witness for C5: a concrete composite with an empty third field. -/
theorem C5_empty_deleted_absent_witness :
    TimeMetadata.Scan1 zeroTM (.str (comp3 tsA tsB [])) =
      ({zeroTM with CreatedAt := tA, UpdatedAt := tB}, none) ∧
    (TimeMetadata.Scan1 zeroTM (.str (comp3 tsA tsB []))).1.DeletedAt = none ∧
    hasKey keyDeletedAt
      (TimeMetadata.MarshalJSON (TimeMetadata.Scan1 zeroTM (.str (comp3 tsA tsB []))).1)
      = false :=
  C5_empty_deleted_absent zeroTM tsA tsB tA tB (by rfl) (by rfl) (by rfl)

/-- Claim C6.  Decoding `(ownerId,created,updated,)` with `Metadata.Scan1`
yields an owner that is a weak `User` reference carrying only the decoded
identifier (all other `User` fields are the zero value), the two timestamps
set, and `DeletedAt` absent. -/
theorem C6_owner_weak_reference (m : Metadata) (ui t1 t2 : Str) (bs : uuid.UUID)
    (c u : GoTime) (hu : uuid.Parse ui = some bs)
    (h1 : pq.ParseTimestamp t1 = .ok c) (h2 : pq.ParseTimestamp t2 = .ok u)
    (hdel : m.TimeMetadata.DeletedAt = none) :
    Metadata.Scan1 m (.str (comp4 ui t1 t2 [])) =
      (Metadata.mk (some (User.mk (some bs) [] [] none zeroMetadata)) ⟨c, u, none⟩,
       none) := by
  rw [metaScan_ok m ui t1 t2 bs c u hu h1 h2]
  have htm : ({m.TimeMetadata with CreatedAt := c, UpdatedAt := u} : TimeMetadata) =
      ⟨c, u, none⟩ := by
    rw [show ({m.TimeMetadata with CreatedAt := c, UpdatedAt := u} : TimeMetadata) =
      ⟨c, u, m.TimeMetadata.DeletedAt⟩ from rfl, hdel]
  rw [htm]

/-- Witness for C6: a concrete ownership composite with the nil UUID. -/
theorem C6_owner_weak_reference_witness :
    Metadata.Scan1 zeroMetadata (.str (comp4 uuidZ tsA tsB [])) =
      (Metadata.mk (some (User.mk (some uuidZBytes) [] [] none zeroMetadata))
        ⟨tA, tB, none⟩, none) :=
  C6_owner_weak_reference zeroMetadata uuidZ tsA tsB uuidZBytes tA tB
    (by rfl) (by rfl) (by rfl) (by rfl)

/-- Claim C7 (amended).  With every optional field empty,
`TimeMetadata.MarshalJSON` yields an absent encoding (a nil byte slice), but
`Metadata.MarshalJSON` — which lacks the emptiness check — yields the empty
JSON container instead (see `C7_metadata_empty_container`). -/
theorem C7_empty_block_encodings :
    (∀ tm : TimeMetadata, tm.CreatedAt.IsZero = true → tm.UpdatedAt.IsZero = true →
      (tm.DeletedAt = none ∨ ∃ d, tm.DeletedAt = some d ∧ d.IsZero = true) →
      TimeMetadata.MarshalJSON tm = none) ∧
    (∀ m : Metadata, m.Owner = none → m.TimeMetadata.CreatedAt.IsZero = true →
      m.TimeMetadata.UpdatedAt.IsZero = true →
      (m.TimeMetadata.DeletedAt = none ∨
        ∃ d, m.TimeMetadata.DeletedAt = some d ∧ d.IsZero = true) →
      Metadata.MarshalJSON m = some []) :=
  ⟨fun tm hc hu hd => marshalTM_all_empty tm hc hu hd,
   fun m ho hc hu hd => marshalMeta_all_empty m ho hc hu hd⟩

/-- Witness for C7: the zero values of both metadata blocks. -/
theorem C7_empty_block_encodings_witness :
    TimeMetadata.MarshalJSON zeroTM = none ∧
    Metadata.MarshalJSON zeroMetadata = some [] :=
  ⟨C7_empty_block_encodings.1 zeroTM (by rfl) (by rfl) (Or.inl rfl),
   C7_empty_block_encodings.2 zeroMetadata (by rfl) (by rfl) (by rfl) (Or.inl rfl)⟩

/-- Counterexample to C7 as stated: on the all-empty `Metadata` block the
re-encoder returns the empty JSON container (`some []`, i.e. the bytes of
an empty object), not an empty/absent encoding (`none`). -/
theorem C7_metadata_empty_container :
    Metadata.MarshalJSON zeroMetadata = some [] ∧
    Metadata.MarshalJSON zeroMetadata ≠ none := by
  refine ⟨rfl, ?_⟩
  rw [show Metadata.MarshalJSON zeroMetadata = some [] from rfl]
  simp

/-- Claim C8 (amended).  Every composite decoder trims ALL leading and
trailing parenthesis characters (Go `strings.Trim` with cutset `"()"`), not
exactly one pair: surrounding a paren-free payload with any numbers of extra
leading and trailing parentheses never changes the decode result. -/
theorem C8_trim_all_parens (tm : TimeMetadata) (m : Metadata) (uo : UserOrganization)
    (s : Str) (hs : ∀ c ∈ s, isParen c = false) (k j : Nat) :
    TimeMetadata.Scan1 tm (.str (List.replicate k '(' ++ s ++ List.replicate j ')')) =
      TimeMetadata.Scan1 tm (.str s) ∧
    Metadata.Scan1 m (.str (List.replicate k '(' ++ s ++ List.replicate j ')')) =
      Metadata.Scan1 m (.str s) ∧
    UserOrganization.Scan uo (.str (List.replicate k '(' ++ s ++ List.replicate j ')')) =
      UserOrganization.Scan uo (.str s) := by
  have ht1 := goTrim_wrap_parens s hs k j
  have ht2 := goTrim_of_not isParen s hs
  refine ⟨?_, ?_, ?_⟩
  · simp only [TimeMetadata.Scan1, ScanToString, ht1, ht2]
  · simp only [Metadata.Scan1, ScanToString, ht1, ht2]
  · simp only [UserOrganization.Scan, ScanToString, ht1, ht2]

/-- Witness for C8: wrapping a 3-field payload in two extra paren pairs. -/
theorem C8_trim_all_parens_witness :
    TimeMetadata.Scan1 zeroTM
        (.str (List.replicate 2 '(' ++ "a,b,c".toList ++ List.replicate 2 ')')) =
      TimeMetadata.Scan1 zeroTM (.str ("a,b,c".toList)) ∧
    Metadata.Scan1 zeroMetadata
        (.str (List.replicate 2 '(' ++ "a,b,c".toList ++ List.replicate 2 ')')) =
      Metadata.Scan1 zeroMetadata (.str ("a,b,c".toList)) ∧
    UserOrganization.Scan zeroUO
        (.str (List.replicate 2 '(' ++ "a,b,c".toList ++ List.replicate 2 ')')) =
      UserOrganization.Scan zeroUO (.str ("a,b,c".toList)) :=
  C8_trim_all_parens zeroTM zeroMetadata zeroUO ("a,b,c".toList) (by decide) 2 2

/-- Counterexample to C8 as stated: if only one leading and one trailing
parenthesis were stripped, the doubly wrapped composite
`((2024-01-01 00:00:00,2024-01-02 00:00:00,))` would keep the extra
parentheses as field content and the timestamp parse would fail; instead the
decode succeeds and produces exactly the same result as the singly wrapped
composite — the extra parentheses are removed, not preserved. -/
theorem C8_double_parens_not_preserved :
    TimeMetadata.Scan1 zeroTM (.str ('(' :: comp3 tsA tsB [] ++ [')'])) =
      ({zeroTM with CreatedAt := tA, UpdatedAt := tB}, none) ∧
    TimeMetadata.Scan1 zeroTM (.str ('(' :: comp3 tsA tsB [] ++ [')'])) =
      TimeMetadata.Scan1 zeroTM (.str (comp3 tsA tsB [])) :=
  ⟨rfl, rfl⟩

/-- Claim C9 (amended).  `TimeMetadata.Scan1` (and through it
`Metadata.Scan1`) trims surrounding double quotes from each field after
splitting, so a quoted field decodes to its unquoted content — but
`UserOrganization.Scan` performs no quote trimming on its own three leading
fields, so a quoted role keeps its quotes (see
`C9_membership_keeps_quotes`). -/
theorem C9_quote_trimming (tm : TimeMetadata) (t1 t2 : Str) (c u : GoTime)
    (h1 : pq.ParseTimestamp t1 = .ok c) (h2 : pq.ParseTimestamp t2 = .ok u) :
    TimeMetadata.Scan1 tm (.str (comp3 ('"' :: t1 ++ ['"']) t2 [])) =
      TimeMetadata.Scan1 tm (.str (comp3 t1 t2 [])) ∧
    (UserOrganization.Scan zeroUO (.str elemQuotedRole)).1.Role =
      "\"admin\"".toList :=
  ⟨(scan1_pair_q0 tm t1 t2 c u h1 h2).trans (scan1_pair tm t1 t2 c u h1 h2).symm,
   rfl⟩

/-- Witness for C9: quoting a concrete timestamp field does not change the
decode result of `TimeMetadata.Scan1`. -/
theorem C9_quote_trimming_witness :
    TimeMetadata.Scan1 zeroTM (.str (comp3 ('"' :: tsA ++ ['"']) tsB [])) =
      TimeMetadata.Scan1 zeroTM (.str (comp3 tsA tsB [])) ∧
    (UserOrganization.Scan zeroUO (.str elemQuotedRole)).1.Role =
      "\"admin\"".toList :=
  C9_quote_trimming zeroTM tsA tsB tA tB (by rfl) (by rfl)

/-- Counterexample to C9 as stated: the membership decoder does not trim
quotes — a quoted role `"admin"` decodes successfully but keeps its quote
characters instead of decoding to the unquoted content `admin`. -/
theorem C9_membership_keeps_quotes :
    (UserOrganization.Scan zeroUO (.str elemQuotedRole)).2 = none ∧
    (UserOrganization.Scan zeroUO (.str elemQuotedRole)).1.Role = "\"admin\"".toList ∧
    (UserOrganization.Scan zeroUO (.str elemQuotedRole)).1.Role ≠ "admin".toList :=
  ⟨rfl, rfl, by decide⟩

/-- Claim C10.  A successful `UserOrganizations.Scan` on a receiver that
already holds elements appends the newly decoded elements after the existing
ones rather than replacing the slice: the result is exactly the old receiver
followed by what a scan into an empty receiver would produce. -/
theorem C10_scan_appends (uos : UserOrganizations) (src : Src)
    (h : (UserOrganizations.Scan uos src).2 = none) :
    (UserOrganizations.Scan uos src).1 =
      uos ++ (UserOrganizations.Scan [] src).1 := by
  unfold UserOrganizations.Scan
  cases hsa : pq.StringArray.Scan src with
  | error e =>
    dsimp only
    simp
  | ok arr =>
    dsimp only
    rw [scanLoop_shift arr uos]

/-- Witness for C10: scanning a two-element array into a receiver that already
holds one element keeps that element in front and appends the two decoded
ones. -/
theorem C10_scan_appends_witness :
    (UserOrganizations.Scan [zeroUO] (.str arr2)).1 =
      [zeroUO] ++ (UserOrganizations.Scan [] (.str arr2)).1 :=
  C10_scan_appends [zeroUO] (.str arr2) (by rfl)

end MT
